import Mathlib

/-!
Shallow embedding of the MyLoadTest datapool primitives (counter, map, queue)
from the Express/SQLite route handlers, together with proofs about the spec
claims C1..C10.

Modelling conventions:
- each SQLite database file is an association list in insertion-independent
  observable form; `INSERT OR REPLACE` is modelled by removing any row with
  the same key and consing the new row;
- each HTTP route handler is a function `State → Response × State`, where the
  response is `Except ApiError α` (`ApiError.validationError` for the
  express-validator 400 path, `ApiError.notFound` for the 404 path);
- `BEGIN EXCLUSIVE TRANSACTION ... COMMIT` makes a handler body one atomic
  step, so a handler is a single state transition;
- JSON values are an inductive type; `JSON.stringify`/`JSON.parse`
  round-tripping is modelled by storing the JSON value itself (the code
  assumes `parse` never throws on values it stored).
-/

namespace Datapool

/-- JSON-serializable values (object, string, number, boolean, array, null),
as accepted by the express.json body parser. Numbers are modelled as
integers; none of the verified claims depends on non-integer numbers. -/
inductive Json where
  | null : Json
  | bool : Bool → Json
  | num : Int → Json
  | str : String → Json
  | arr : List Json → Json
  | obj : List (String × Json) → Json
deriving Repr

mutual

/-- JavaScript `String(x)` conversion, as used by `Array.prototype.join`
and by express-validator when coercing a non-string field to a string. -/
def jsString : Json → String
  | .null => "null"
  | .bool true => "true"
  | .bool false => "false"
  | .num n => toString n
  | .str s => s
  | .arr xs => jsArrayJoin xs
  | .obj _ => "[object Object]"

/-- JavaScript `Array.prototype.toString`, a comma join where `null`
elements become the empty string. -/
def jsArrayJoin : List Json → String
  | [] => ""
  | [.null] => ""
  | [x] => jsString x
  | .null :: xs => "," ++ jsArrayJoin xs
  | x :: xs => jsString x ++ "," ++ jsArrayJoin xs

end

/-- express-validator field-to-string coercion (`toString` in its source):
a non-empty array is coerced via its first element (one level deep), an
object via `Object.prototype.toString`, `null` to the empty string. The
flag is the `deep` parameter. -/
def evToString : Json → Bool → String
  | .arr (x :: _), true => evToString x false
  | .arr xs, _ => jsArrayJoin xs
  | .obj _, _ => "[object Object]"
  | .null, _ => ""
  | .bool b, _ => jsString (.bool b)
  | .num n, _ => toString n
  | .str s, _ => s

/-- express-validator `body().notEmpty()`: the body coerced to a string is
non-empty. Matches the code comment: catches `null`, `""` and `[]`, but not
`{}`. -/
def bodyNotEmpty (v : Json) : Bool :=
  evToString v true ≠ ""

/-- Validator `param(name).isAlphanumeric()`: non-empty and every character in
`[A-Za-z0-9]`. -/
def isAlphanumName (s : String) : Bool :=
  !s.data.isEmpty && s.data.all (fun c => c.isAlpha || c.isDigit)

/-- Failure outcomes of the route handlers: 400 from express-validator,
404 for a missing collection, and an uncaught JavaScript exception thrown
inside a handler callback (no HTTP response is produced; the node process
crashes). -/
inductive ApiError where
  | validationError : ApiError
  | notFound : ApiError
  | exception : ApiError
deriving Repr, DecidableEq

/-! ### Counter engine (`counters.sqlite`, table `counters(name, value)`) -/

/-- The `counters` table: one row per counter name (`name` is the primary
key), holding an integer value. -/
abbrev CounterDB := List (String × Int)

/-- Statement `INSERT OR REPLACE INTO counters (name, value) VALUES (?, ?)`: delete
any row with the same primary key, insert the new row. -/
def counterUpsert (db : CounterDB) (name : String) (v : Int) : CounterDB :=
  (name, v) :: db.filter (fun p => p.1 ≠ name)

/-- Query `SELECT value FROM counters WHERE name = ?`. -/
def counterValue (db : CounterDB) (name : String) : Option Int :=
  db.lookup name

/-- JavaScript `Number.MAX_SAFE_INTEGER`, the upper bound of the
`isInt({min: 1, max: Number.MAX_SAFE_INTEGER})` validator on
`POST /counter/{name}`. -/
def maxSafeInteger : Int := 9007199254740991

/-- Route `POST /counter/{name}` (initialise a counter): validates the name and
`body().isInt({min: 1, max: Number.MAX_SAFE_INTEGER})`, then runs
`INSERT OR REPLACE INTO counters (name, value) VALUES (?, ?)` and replies
201. -/
def initCounter (db : CounterDB) (name : String) (v : Int) :
    Except ApiError Unit × CounterDB :=
  if isAlphanumName name ∧ 1 ≤ v ∧ v ≤ maxSafeInteger then
    (.ok (), counterUpsert db name v)
  else
    (.error .validationError, db)

/-- The body of `GET /counter/{name}` inside
`BEGIN EXCLUSIVE TRANSACTION ... COMMIT`:
`INSERT OR REPLACE INTO counters (name, value) VALUES (?,
  COALESCE((SELECT value FROM counters WHERE name = ?) + 1, 1))`
followed by `SELECT value FROM counters WHERE name = ?`, returning the
selected value. -/
def incrementCore (db : CounterDB) (name : String) : Int × CounterDB :=
  let newV : Int :=
    match counterValue db name with
    | some v => v + 1
    | none => 1
  let db1 := counterUpsert db name newV
  (newV, db1)

/-- Route `GET /counter/{name}`: validates the name, then runs `incrementCore`
as one exclusive transaction and replies with the new value. -/
def incrementAndGet (db : CounterDB) (name : String) :
    Except ApiError Int × CounterDB :=
  if isAlphanumName name then
    let (v, db1) := incrementCore db name
    (.ok v, db1)
  else
    (.error .validationError, db)

/-- Runs `n` successive `GET /counter/{name}` calls; because each call is one
exclusive transaction, any interleaving of `n` concurrent calls executes as
this sequential composition. Returns the list of responses in commit
order. -/
def incrementN (db : CounterDB) (name : String) :
    Nat → List (Except ApiError Int) × CounterDB
  | 0 => ([], db)
  | n + 1 =>
    let (r, db1) := incrementAndGet db name
    let (rs, db2) := incrementN db1 name n
    (r :: rs, db2)

/-! ### Queue engine (`queues.sqlite`, one table per queue name) -/

/-- A row of a queue table: `position INTEGER PRIMARY KEY`,
`item TEXT NOT NULL` (the JSON-stringified payload, stored here as the
JSON value itself). -/
structure Row where
  position : Int
  item : Json
deriving Repr

/-- The backing table of one queue, in on-disk order. A SQLite table keyed by
`position INTEGER PRIMARY KEY` stores rows in ascending rowid order. -/
abbrev QueueTable := List Row

/-- The `queues.sqlite` database: one table per queue name. -/
abbrev QueueDB := List (String × QueueTable)

/-- Helper `dbTableExists`: the query
SELECT count from sqlite_master WHERE type=table AND name=?. -/
def dbTableExists (db : QueueDB) (name : String) : Bool :=
  (db.lookup name).isSome

/-- The rows of the named table (`[]` when the table does not exist). -/
def queueRows (db : QueueDB) (name : String) : QueueTable :=
  (db.lookup name).getD []

/-- Replace (or create) the rows of the named table. -/
def queueUpsert (db : QueueDB) (name : String) (t : QueueTable) : QueueDB :=
  (name, t) :: db.filter (fun p => p.1 ≠ name)

/-- The largest position currently in the table, 0 if the table is empty.
SQLite assigns a new `INTEGER PRIMARY KEY` as one more than the largest
rowid in use; positions created through the API are always ≥ 1. -/
def maxPosition (t : QueueTable) : Int :=
  t.foldl (fun m r => max m r.position) 0

/-- Statement `INSERT INTO {queue} (item) VALUES (?), (?), ...`: SQLite assigns each
new row the rowid one more than the current largest, in the given order. -/
def insertItems (t : QueueTable) : List Json → QueueTable
  | [] => t
  | x :: xs => insertItems (t ++ [⟨maxPosition t + 1, x⟩]) xs

/-- Insert a row into a position-sorted list of rows. -/
def insertByPosition (r : Row) : QueueTable → QueueTable
  | [] => [r]
  | s :: rest =>
    if r.position ≤ s.position then r :: s :: rest
    else s :: insertByPosition r rest

/-- Clause `ORDER BY position ASC` (insertion sort; positions are unique, being
the primary key, so stability is irrelevant). -/
def sortByPosition : QueueTable → QueueTable
  | [] => []
  | r :: rest => insertByPosition r (sortByPosition rest)

/-- The positions of the rows of a table, in row order. -/
def rowPositions (t : QueueTable) : List Int :=
  t.map Row.position

/-- Strictly-ascending-by-position check on the rows of a table; every table
reachable through the API satisfies it (rows sit in rowid order). -/
def tableSortedB : QueueTable → Bool
  | [] => true
  | [_] => true
  | r :: s :: rest => r.position < s.position && tableSortedB (s :: rest)

/-- Route `POST /queue/{name}` (enqueue): validates the name and
`body().isArray().notEmpty()`; creates the table if it does not exist
(`CREATE TABLE IF NOT EXISTS`); inserts all items in their array order in
one `db.serialize` block. Replies 201. -/
def enqueue (db : QueueDB) (name : String) (items : List Json) :
    Except ApiError Unit × QueueDB :=
  if isAlphanumName name ∧ bodyNotEmpty (Json.arr items) then
    (.ok (), queueUpsert db name (insertItems (queueRows db name) items))
  else
    (.error .validationError, db)

/-- The dequeue transaction body (`BEGIN EXCLUSIVE TRANSACTION ... COMMIT`):
`SELECT * FROM {queue} ORDER BY position ASC LIMIT ?`, then
`DELETE FROM {queue} WHERE position IN
  (SELECT position FROM {queue} ORDER BY position ASC LIMIT ?)`,
returning the selected items in ascending-position order. -/
def dequeueRows (t : QueueTable) (limit : Nat) : List Json × QueueTable :=
  (((sortByPosition t).take limit).map Row.item,
   t.filter (fun r =>
     !decide (r.position ∈ ((sortByPosition t).take limit).map Row.position)))

/-- Route `GET /queue/{name}` (dequeue): validates the name and the optional
`limit ≥ 1` (default 1); 404 if the table does not exist; otherwise runs
`dequeueRows` as one exclusive transaction. -/
def dequeue (db : QueueDB) (name : String) (limit : Nat) :
    Except ApiError (List Json) × QueueDB :=
  if isAlphanumName name ∧ 1 ≤ limit then
    if dbTableExists db name then
      (.ok (dequeueRows (queueRows db name) limit).1,
       queueUpsert db name (dequeueRows (queueRows db name) limit).2)
    else
      (.error .notFound, db)
  else
    (.error .validationError, db)

/-- JavaScript `new Array(x)` applied to the parsed payload, as the peek
handler does in `res.json(new Array(JSON.parse(row.item)))`: a single
number argument is taken as a LENGTH — a non-negative integer n yields n
holes, which `res.json` serializes as n JSON nulls, while a negative
number throws a RangeError (`none` here; non-integer numbers, which also
throw, are not representable since payload numbers are modelled as
integers) — and any non-number argument x yields the one-element array
`[x]`. -/
def jsNewArray : Json → Option (List Json)
  | .num n => if 0 ≤ n then some (List.replicate n.toNat Json.null) else none
  | v => some [v]

/-- Route `GET /queue/{name}/peek`: validates the name; 404 if the table does
not exist; otherwise `SELECT item FROM {queue} ORDER BY position ASC
LIMIT 1`, replying `[]` for an empty table and otherwise
`new Array(JSON.parse(row.item))` — the one-element array only for
non-number payloads, n nulls for a payload that is the number n ≥ 0, and
an uncaught RangeError for a negative number payload. The handler runs no
writes. -/
def peekQueue (db : QueueDB) (name : String) :
    Except ApiError (List Json) × QueueDB :=
  if isAlphanumName name then
    if dbTableExists db name then
      match (sortByPosition (queueRows db name)).head? with
      | none => (.ok [], db)
      | some r =>
        match jsNewArray r.item with
        | some payload => (.ok payload, db)
        | none => (.error .exception, db)
    else
      (.error .notFound, db)
  else
    (.error .validationError, db)

/-- Route `GET /queue/{name}/depth`: validates the name; 404 if the table does
not exist; otherwise `SELECT count(*) FROM {queue}`. -/
def depthQueue (db : QueueDB) (name : String) :
    Except ApiError Nat × QueueDB :=
  if isAlphanumName name then
    if dbTableExists db name then
      (.ok (queueRows db name).length, db)
    else
      (.error .notFound, db)
  else
    (.error .validationError, db)

/-- Route `DELETE /queue/{name}` (clear): validates the name; replies 200
without touching storage if the table does not exist, otherwise
`DROP TABLE {queue}` and 200. -/
def clearQueue (db : QueueDB) (name : String) :
    Except ApiError Unit × QueueDB :=
  if isAlphanumName name then
    if dbTableExists db name then
      (.ok (), db.filter (fun p => p.1 ≠ name))
    else
      (.ok (), db)
  else
    (.error .validationError, db)

/-- Runs `n` successive `GET /queue/{name}/peek` calls, threading the state. -/
def peekN (db : QueueDB) (name : String) : Nat → QueueDB
  | 0 => db
  | n + 1 => peekN (peekQueue db name).2 name n

/-! ### Map store (`maps.sqlite`, table `maps(name, value)`) -/

/-- The `maps` table: one row per key (`name` is the primary key), the
value column holding the JSON-stringified value (stored here as the JSON
value itself; the code assumes `JSON.parse` round-trips what it wrote). -/
abbrev MapDB := List (String × Json)

/-- Statement `INSERT OR REPLACE INTO maps (name, value) VALUES (?, ?)`. -/
def mapUpsert (db : MapDB) (key : String) (v : Json) : MapDB :=
  (key, v) :: db.filter (fun p => p.1 ≠ key)

/-- Route `POST /map/{name}` (put): validates the name and `body().notEmpty()`,
then runs the single `INSERT OR REPLACE` statement. Replies 201. -/
def mapPut (db : MapDB) (key : String) (v : Json) :
    Except ApiError Unit × MapDB :=
  if isAlphanumName key ∧ bodyNotEmpty v then
    (.ok (), mapUpsert db key v)
  else
    (.error .validationError, db)

/-- Route `GET /map/{name}` (get): validates the name; `SELECT value FROM maps
WHERE name = ?`; 404 when no row exists, otherwise the parsed value. -/
def mapGet (db : MapDB) (key : String) :
    Except ApiError Json × MapDB :=
  if isAlphanumName key then
    match db.lookup key with
    | some v => (.ok v, db)
    | none => (.error .notFound, db)
  else
    (.error .validationError, db)

/-- The integers `m+1, m+2, ..., m+k`, in order: the block of positions
minted by one enqueue batch (and likewise the values a run of counter
increments returns). -/
def consecutiveInts (m : Int) : Nat → List Int
  | 0 => []
  | k + 1 => (m + 1) :: consecutiveInts (m + 1) k

/-! ### Helper lemmas about the embedding -/

/-- Looking up the key just written by an `INSERT OR REPLACE`. -/
theorem lookup_upsert_self {α : Type} (db : List (String × α)) (name : String)
    (v : α) :
    List.lookup name ((name, v) :: db.filter (fun p => p.1 ≠ name)) = some v := by
  simp

/-- After deleting every row with a given key, looking the key up fails. -/
theorem lookup_filter_self {α : Type} (db : List (String × α)) (name : String) :
    List.lookup name (db.filter (fun p => p.1 ≠ name)) = none := by
  rw [List.lookup_eq_none_iff]
  intro p hp
  have := (List.mem_filter.mp hp).2
  simp at this
  simpa [beq_eq_false_iff_ne] using (Ne.symm this)

/-- Check `tableSortedB` restricted to the tail. -/
theorem tableSortedB_tail {r : Row} {t : QueueTable}
    (h : tableSortedB (r :: t) = true) : tableSortedB t = true := by
  cases t with
  | nil => rfl
  | cons s rest =>
    simp only [tableSortedB, Bool.and_eq_true] at h
    exact h.2

/-- In a strictly sorted table, the head position is below the position of
every other row. -/
theorem tableSortedB_head_lt {r : Row} {t : QueueTable}
    (h : tableSortedB (r :: t) = true) :
    ∀ s ∈ t, r.position < s.position := by
  induction t generalizing r with
  | nil => intro s hs; cases hs
  | cons s rest ih =>
    intro x hx
    simp only [tableSortedB, Bool.and_eq_true, decide_eq_true_eq] at h
    cases hx with
    | head => exact h.1
    | tail _ hx => exact lt_trans h.1 (ih h.2 x hx)

/-- Inserting a row below every element of a list puts it in front. -/
theorem insertByPosition_of_lt (r : Row) (t : QueueTable)
    (h : ∀ s ∈ t, r.position < s.position) :
    insertByPosition r t = r :: t := by
  cases t with
  | nil => rfl
  | cons s rest =>
    have hle : r.position ≤ s.position := le_of_lt (h s (List.mem_cons_self s rest))
    simp [insertByPosition, hle]

/-- Sorting with `ORDER BY position ASC` is the identity on a table already in
ascending position order. -/
theorem sortByPosition_eq_self {t : QueueTable} (h : tableSortedB t = true) :
    sortByPosition t = t := by
  induction t with
  | nil => rfl
  | cons r rest ih =>
    rw [sortByPosition, ih (tableSortedB_tail h),
      insertByPosition_of_lt r rest (tableSortedB_head_lt h)]

/-- Deleting the rows whose position occurs among the first `k` rows of a
strictly sorted table drops exactly those `k` rows. -/
theorem filter_not_mem_take_eq_drop (t : QueueTable) :
    ∀ k : Nat, tableSortedB t = true →
      t.filter (fun r => !decide (r.position ∈ (t.take k).map Row.position))
        = t.drop k := by
  induction t with
  | nil => intro k _; simp
  | cons r rest ih =>
    intro k h
    cases k with
    | zero => simp
    | succ k =>
      have hlt := tableSortedB_head_lt h
      have htail := tableSortedB_tail h
      simp only [List.take_succ_cons, List.map_cons, List.drop_succ_cons]
      rw [List.filter_cons]
      have hr : (!decide (r.position ∈
          r.position :: (rest.take k).map Row.position)) = false := by simp
      rw [hr]
      simp only [Bool.false_eq_true, if_false]
      have hcong : rest.filter
          (fun s => !decide (s.position ∈
            r.position :: (rest.take k).map Row.position))
          = rest.filter
            (fun s => !decide (s.position ∈ (rest.take k).map Row.position)) := by
        apply List.filter_congr
        intro s hs
        have hne : s.position ≠ r.position := ne_of_gt (hlt s hs)
        simp [List.mem_cons, hne]
      rw [hcong, ih k htail]

/-- Computing `maxPosition` over a table extended on the right by one row. -/
theorem maxPosition_append_single (t : QueueTable) (r : Row) :
    maxPosition (t ++ [r]) = max (maxPosition t) r.position := by
  simp [maxPosition, List.foldl_append]

/-- The accumulator never exceeds the fold of `max`. -/
theorem le_foldl_max (t : QueueTable) (a : Int) :
    a ≤ t.foldl (fun m r => max m r.position) a := by
  induction t generalizing a with
  | nil => exact le_refl a
  | cons r rest ih =>
    simp only [List.foldl_cons]
    exact le_trans (le_max_left a r.position) (ih (max a r.position))

/-- The position of every row is bounded by the fold of `max`. -/
theorem position_le_foldl_max (t : QueueTable) :
    ∀ a : Int, ∀ r ∈ t, r.position ≤ t.foldl (fun m s => max m s.position) a := by
  induction t with
  | nil => intro a r hr; cases hr
  | cons s rest ih =>
    intro a r hr
    simp only [List.foldl_cons]
    cases hr with
    | head => exact le_trans (le_max_right a s.position) (le_foldl_max rest _)
    | tail _ hr => exact ih _ r hr

/-- Every position in a table is at most `maxPosition`. -/
theorem position_le_maxPosition {t : QueueTable} {p : Int}
    (hp : p ∈ rowPositions t) : p ≤ maxPosition t := by
  obtain ⟨r, hr, rfl⟩ := List.mem_map.mp hp
  exact position_le_foldl_max t 0 r hr

theorem mem_consecutiveInts {x m : Int} {k : Nat} :
    x ∈ consecutiveInts m k ↔ m + 1 ≤ x ∧ x ≤ m + k := by
  induction k generalizing m with
  | zero => simp [consecutiveInts]; omega
  | succ k ih =>
    simp only [consecutiveInts, List.mem_cons, ih]
    constructor
    · rintro (rfl | ⟨h1, h2⟩) <;> constructor <;> push_cast <;> omega
    · rintro ⟨h1, h2⟩
      rcases eq_or_lt_of_le h1 with h | h
      · exact Or.inl h.symm
      · right; constructor <;> push_cast at * <;> omega

/-- A freshly minted block of positions is strictly increasing. -/
theorem consecutiveInts_pairwise (m : Int) (k : Nat) :
    List.Pairwise (· < ·) (consecutiveInts m k) := by
  induction k generalizing m with
  | zero => exact List.Pairwise.nil
  | succ k ih =>
    refine List.Pairwise.cons ?_ (ih (m + 1))
    intro x hx
    rw [mem_consecutiveInts] at hx
    omega

/-- The positions after a batch insert: the old positions followed by the
fresh block continuing from the current maximum. -/
theorem insertItems_positions (items : List Json) : ∀ t : QueueTable,
    rowPositions (insertItems t items)
      = rowPositions t ++ consecutiveInts (maxPosition t) items.length := by
  induction items with
  | nil => intro t; simp [insertItems, consecutiveInts]
  | cons x xs ih =>
    intro t
    simp only [insertItems]
    rw [ih]
    have hmax : maxPosition (t ++ [⟨maxPosition t + 1, x⟩])
        = maxPosition t + 1 := by
      rw [maxPosition_append_single]
      show max (maxPosition t) (maxPosition t + 1) = maxPosition t + 1
      exact max_eq_right (by omega)
    rw [hmax]
    simp [rowPositions, consecutiveInts]

/-- One `GET /counter/{name}` on a valid name: the response is the stored
value plus one (1 when no row exists) and that value is what ends up
stored. -/
theorem incrementAndGet_ok (db : CounterDB) (name : String)
    (hname : isAlphanumName name = true) :
    (incrementAndGet db name).1 = .ok ((counterValue db name).getD 0 + 1) ∧
    counterValue (incrementAndGet db name).2 name
      = some ((counterValue db name).getD 0 + 1) := by
  have h1 : incrementAndGet db name
      = (.ok ((counterValue db name).getD 0 + 1),
         counterUpsert db name ((counterValue db name).getD 0 + 1)) := by
    unfold incrementAndGet incrementCore
    cases h : counterValue db name with
    | none => simp [hname, h]
    | some v => simp [hname, h]
  rw [h1]
  exact ⟨rfl, lookup_upsert_self db name _⟩

/-- The peek handler leaves the store untouched (it only runs a SELECT). -/
theorem peekQueue_snd (db : QueueDB) (name : String) :
    (peekQueue db name).2 = db := by
  unfold peekQueue
  by_cases h1 : isAlphanumName name = true
  · by_cases h2 : dbTableExists db name = true
    · cases h : (sortByPosition (queueRows db name)).head? with
      | none => simp [h1, h2, h]
      | some r => cases hj : jsNewArray r.item <;> simp [h1, h2, h, hj]
    · simp [h1, h2]
  · simp [h1]

/-- Iterated peeks leave the store untouched. -/
theorem peekN_eq (db : QueueDB) (name : String) : ∀ n, peekN db name n = db := by
  intro n
  induction n with
  | zero => rfl
  | succ n ih => simp only [peekN, peekQueue_snd]; exact ih

/-- Runs of `n` successive increments on a valid name return the consecutive run
of values starting just above the current stored value. -/
theorem incrementN_results (name : String) (hname : isAlphanumName name = true) :
    ∀ (n : Nat) (db : CounterDB),
      (incrementN db name n).1
        = (consecutiveInts ((counterValue db name).getD 0) n).map Except.ok := by
  intro n
  induction n with
  | zero => intro db; rfl
  | succ n ih =>
    intro db
    obtain ⟨h1, h2⟩ := incrementAndGet_ok db name hname
    simp only [incrementN]
    rw [ih ((incrementAndGet db name).2), h2, h1]
    simp [consecutiveInts]

/-- A repeated `INSERT OR REPLACE` of the same row is a no-op. -/
theorem counterUpsert_idem (db : CounterDB) (name : String) (v : Int) :
    counterUpsert (counterUpsert db name v) name v = counterUpsert db name v := by
  unfold counterUpsert
  simp [List.filter_cons, List.filter_filter]

/-! ### Claim theorems -/

/-- C1: for every counter name and current stored value v (0 when no row
exists), one `incrementAndGet` call returns v + 1 and leaves the stored
value equal to the returned value; in particular after
`initialize("orderId", 1027465)` two successive calls return 1027466 and
then 1027467. -/
theorem c1_increment_and_get (db : CounterDB) (name : String)
    (hname : isAlphanumName name = true) :
    ((incrementAndGet db name).1 = .ok ((counterValue db name).getD 0 + 1) ∧
      counterValue (incrementAndGet db name).2 name
        = some ((counterValue db name).getD 0 + 1)) ∧
    ((incrementAndGet (initCounter [] "orderId" 1027465).2 "orderId").1
        = .ok 1027466 ∧
      (incrementAndGet
        (incrementAndGet (initCounter [] "orderId" 1027465).2 "orderId").2
        "orderId").1 = .ok 1027467) := by
  exact ⟨incrementAndGet_ok db name hname, rfl, rfl⟩

/-- Witness for C1: a counter stored at 5 increments to 6. -/
theorem c1_witness :
    (incrementAndGet [("x", (5 : Int))] "x").1 = .ok 6 ∧
    counterValue (incrementAndGet [("x", (5 : Int))] "x").2 "x" = some 6 := by
  have h := (c1_increment_and_get [("x", (5 : Int))] "x" (by decide)).1
  exact ⟨by rw [h.1]; rfl, by rw [h.2]; rfl⟩

/-- C5: for a fresh counter, N `incrementAndGet` calls — serialized by the
exclusive transaction into N successive atomic calls, whatever the
interleaving — return exactly the values 1..N, each exactly once, no
duplicates and no gaps. -/
theorem c5_exactly_once_sequence (db : CounterDB) (name : String) (n : Nat)
    (hname : isAlphanumName name = true)
    (hfresh : counterValue db name = none) :
    (incrementN db name n).1 = (consecutiveInts 0 n).map Except.ok ∧
    (∀ v : Int, Except.ok v ∈ (incrementN db name n).1 ↔ 1 ≤ v ∧ v ≤ n) ∧
    (incrementN db name n).1.Nodup := by
  have h := incrementN_results name hname n db
  rw [hfresh] at h
  simp only [Option.getD_none] at h
  refine ⟨h, ?_, ?_⟩
  · intro v
    rw [h, List.mem_map]
    constructor
    · rintro ⟨w, hw, hww⟩
      injection hww with hww
      subst hww
      rw [mem_consecutiveInts] at hw
      omega
    · intro hv
      exact ⟨v, by rw [mem_consecutiveInts]; omega, rfl⟩
  · rw [h]
    refine List.Nodup.map ?_ ?_
    · intro x y hxy
      injection hxy
    · exact (consecutiveInts_pairwise 0 n).imp ne_of_lt

/-- Witness for C5: three calls on a fresh counter return 1, 2, 3. -/
theorem c5_witness :
    (incrementN [] "c" 3).1 = [Except.ok 1, Except.ok 2, Except.ok 3] := by
  have h := (c5_exactly_once_sequence [] "c" 3 (by decide) rfl).1
  rw [h]; rfl

/-- C9 counterexample: `initialize("c", 9007199254740992)` has
startValue ≥ 1, so the claim predicts success, but the route validator
`isInt({max: Number.MAX_SAFE_INTEGER})` rejects it with a 400
and the store is untouched. -/
theorem c9_counterexample :
    (1 : Int) ≤ 9007199254740992 ∧ isAlphanumName "c" = true ∧
    (initCounter [] "c" 9007199254740992).1 = .error .validationError ∧
    counterValue (initCounter [] "c" 9007199254740992).2 "c" = none := by
  refine ⟨by norm_num, by decide, ?_, ?_⟩ <;> rfl

/-- C9 amended: initialize fails with ValidationError before touching
storage when startValue < 1 or startValue > 9007199254740991
(`Number.MAX_SAFE_INTEGER`); otherwise it succeeds, leaves the stored
value exactly startValue overwriting any prior value, and repeating the
same call leaves the same state. -/
theorem c9_initialize_amended (db : CounterDB) (name : String) (v : Int)
    (hname : isAlphanumName name = true) :
    ((v < 1 ∨ maxSafeInteger < v) →
      (initCounter db name v).1 = .error .validationError ∧
      (initCounter db name v).2 = db) ∧
    (1 ≤ v → v ≤ maxSafeInteger →
      (initCounter db name v).1 = .ok () ∧
      counterValue (initCounter db name v).2 name = some v ∧
      initCounter (initCounter db name v).2 name v
        = (.ok (), (initCounter db name v).2)) := by
  constructor
  · intro hv
    have hcond : ¬(isAlphanumName name = true ∧ 1 ≤ v ∧ v ≤ maxSafeInteger) := by
      rintro ⟨-, h1, h2⟩
      rcases hv with h | h <;> omega
    simp [initCounter, hcond]
  · intro h1 h2
    have hc : (initCounter db name v)
        = (.ok (), counterUpsert db name v) := by
      simp [initCounter, hname, h1, h2]
    rw [hc]
    refine ⟨rfl, lookup_upsert_self db name v, ?_⟩
    have hc2 : initCounter (counterUpsert db name v) name v
        = (.ok (), counterUpsert (counterUpsert db name v) name v) := by
      simp [initCounter, hname, h1, h2]
    rw [hc2, counterUpsert_idem]

/-- Witness for C9: initializing a fresh counter to 7 stores 7. -/
theorem c9_witness :
    (initCounter [] "c" 7).1 = .ok () ∧
    counterValue (initCounter [] "c" 7).2 "c" = some 7 := by
  have h := (c9_initialize_amended [] "c" 7 (by decide)).2
      (by norm_num) (by norm_num [maxSafeInteger])
  exact ⟨h.1, h.2.1⟩

/-- C10: peek is read-only — any number of peeks leaves the store
unchanged, so the observed depth and the position and payload of every row are
the same before and after. -/
theorem c10_peek_read_only (db : QueueDB) (name : String) (n : Nat) :
    peekN db name n = db ∧
    (depthQueue (peekN db name n) name).1 = (depthQueue db name).1 ∧
    queueRows (peekN db name n) name = queueRows db name := by
  have h := peekN_eq db name n
  exact ⟨h, by rw [h], by rw [h]⟩

/-- C2: on an existing queue whose table holds rows `t` (in ascending
position order, as a rowid-keyed table stores them), dequeue with
`limit ≥ 1` returns the payloads of exactly the `min(limit, n)`
lowest-position rows in ascending-position order and removes exactly
those rows, leaving depth `n − min(limit, n)`; hence enqueue of
`[a,b,c]` on a fresh queue followed by dequeue with limit 3 returns
`[a,b,c]` and leaves depth 0. -/
theorem c2_dequeue_fifo (db : QueueDB) (name : String) (t : QueueTable)
    (limit : Nat) (a b c : Json)
    (hname : isAlphanumName name = true)
    (hrows : db.lookup name = some t)
    (hsort : tableSortedB t = true)
    (hlim : 1 ≤ limit)
    (henq : bodyNotEmpty (Json.arr [a, b, c]) = true) :
    ((dequeue db name limit).1 = .ok ((t.take limit).map Row.item) ∧
      queueRows (dequeue db name limit).2 name = t.drop limit ∧
      ((t.take limit).map Row.item).length = min limit t.length ∧
      (queueRows (dequeue db name limit).2 name).length
        = t.length - min limit t.length) ∧
    ((dequeue (enqueue [] "q" [a, b, c]).2 "q" 3).1 = .ok [a, b, c] ∧
      (depthQueue (dequeue (enqueue [] "q" [a, b, c]).2 "q" 3).2 "q").1
        = .ok 0) := by
  have hex : dbTableExists db name = true := by
    simp [dbTableExists, hrows]
  have hq : queueRows db name = t := by
    simp [queueRows, hrows]
  have hd : dequeue db name limit
      = (.ok ((t.take limit).map Row.item),
         queueUpsert db name (t.drop limit)) := by
    unfold dequeue dequeueRows
    rw [if_pos ⟨hname, hlim⟩, if_pos hex, hq, sortByPosition_eq_self hsort,
      filter_not_mem_take_eq_drop t limit hsort]
  have hq2 : queueRows (queueUpsert db name (t.drop limit)) name
      = t.drop limit := by
    simp [queueRows, queueUpsert]
  have hgen : (dequeue db name limit).1 = .ok ((t.take limit).map Row.item) ∧
      queueRows (dequeue db name limit).2 name = t.drop limit ∧
      ((t.take limit).map Row.item).length = min limit t.length ∧
      (queueRows (dequeue db name limit).2 name).length
        = t.length - min limit t.length := by
    rw [hd]
    refine ⟨rfl, hq2, by simp, ?_⟩
    rw [hq2]
    simp only [List.length_drop]
    omega
  refine ⟨hgen, ?_⟩
  have hqname : isAlphanumName "q" = true := by decide
  have he : enqueue [] "q" [a, b, c]
      = (.ok (), [("q", insertItems [] [a, b, c])]) := by
    unfold enqueue
    rw [if_pos ⟨hqname, henq⟩]
    rfl
  rw [he]
  exact ⟨rfl, rfl⟩

/-- Witness for C2 on a concrete two-row queue with limit 1. -/
theorem c2_witness :
    (dequeue [("q", [⟨1, Json.num 10⟩, ⟨2, Json.num 20⟩])] "q" 1).1
      = .ok [Json.num 10] ∧
    queueRows (dequeue [("q", [⟨1, Json.num 10⟩, ⟨2, Json.num 20⟩])] "q" 1).2 "q"
      = [⟨2, Json.num 20⟩] := by
  have h := (c2_dequeue_fifo [("q", [⟨1, Json.num 10⟩, ⟨2, Json.num 20⟩])]
      "q" [⟨1, Json.num 10⟩, ⟨2, Json.num 20⟩] 1
      (Json.num 1) (Json.num 2) (Json.num 3)
      (by decide) rfl (by decide) (by norm_num) (by decide)).1
  exact ⟨by rw [h.1]; rfl, by rw [h.2.1]; rfl⟩

/-- C3 counterexample: enqueue "a" into a fresh queue (it gets position
1), dequeue it, enqueue "b" — "b" is assigned position 1 again, because
`position INTEGER PRIMARY KEY` without AUTOINCREMENT restarts from the
maximum position still present, so a position IS reused within the
lifetime of the queue after it is drained. -/
theorem c3_counterexample :
    rowPositions (queueRows (enqueue [] "q" [Json.str "a"]).2 "q") = [1] ∧
    rowPositions (queueRows
      (enqueue (dequeue (enqueue [] "q" [Json.str "a"]).2 "q" 1).2
        "q" [Json.str "b"]).2 "q") = [1] := by
  exact ⟨rfl, rfl⟩

/-- C3 amended: within one enqueue the freshly minted positions strictly
increase, continuing from the maximum position currently present in the
queue (0 if the queue is new or empty), and each strictly exceeds every
position currently present; position values of already-dequeued items may
be reused once the queue has been fully drained. -/
theorem c3_positions_amended (db : QueueDB) (name : String)
    (items : List Json)
    (hname : isAlphanumName name = true)
    (hbody : bodyNotEmpty (Json.arr items) = true) :
    rowPositions (queueRows (enqueue db name items).2 name)
      = rowPositions (queueRows db name)
        ++ consecutiveInts (maxPosition (queueRows db name)) items.length ∧
    List.Pairwise (· < ·)
      (consecutiveInts (maxPosition (queueRows db name)) items.length) ∧
    (∀ p ∈ rowPositions (queueRows db name),
      ∀ q ∈ consecutiveInts (maxPosition (queueRows db name)) items.length,
        p < q) := by
  have he : (enqueue db name items).2
      = queueUpsert db name (insertItems (queueRows db name) items) := by
    unfold enqueue
    rw [if_pos ⟨hname, hbody⟩]
  rw [he]
  have hq : queueRows
      (queueUpsert db name (insertItems (queueRows db name) items)) name
      = insertItems (queueRows db name) items := by
    simp [queueRows, queueUpsert]
  rw [hq, insertItems_positions]
  refine ⟨rfl, consecutiveInts_pairwise _ _, ?_⟩
  intro p hp q hq'
  have h1 := position_le_maxPosition hp
  have h2 := (mem_consecutiveInts.mp hq').1
  omega

/-- Witness for C3 amended: one item into a fresh queue gets position 1. -/
theorem c3_witness :
    rowPositions (queueRows (enqueue [] "q" [Json.num 5]).2 "q") = [1] := by
  have h := (c3_positions_amended [] "q" [Json.num 5] (by decide) (by decide)).1
  rw [h]; rfl

/-- C4: the code contradicts the claim (and its own route documentation)
for number payloads, because the handler replies
`res.json(new Array(JSON.parse(row.item)))` and the single-argument
`Array` constructor takes a number as a length: peek on a queue whose
lowest-position payload is the number 3 replies `[null,null,null]`, on
payload 0 replies `[]` even though the depth is 1, and on payload -1
throws an uncaught RangeError instead of replying; a non-number payload
is returned as the claimed one-element array, and an empty queue replies
`[]`. -/
theorem c4_peek_number_bug :
    (peekQueue [("q", [⟨1, Json.num 3⟩])] "q").1
      = .ok [Json.null, Json.null, Json.null] ∧
    (peekQueue [("q", [⟨1, Json.num 0⟩])] "q").1 = .ok [] ∧
    (depthQueue [("q", [⟨1, Json.num 0⟩])] "q").1 = .ok 1 ∧
    (peekQueue [("q", [⟨1, Json.num (-1)⟩])] "q").1 = .error .exception ∧
    (peekQueue [("q", [⟨1, Json.str "v"⟩])] "q").1 = .ok [Json.str "v"] ∧
    (peekQueue [("q", [])] "q").1 = .ok [] := by
  exact ⟨rfl, rfl, rfl, rfl, rfl, rfl⟩

/-- C6: dequeue, peek and depth reply 404 NotFound exactly when the
backing table of the queue does not exist; on an existing but empty queue they
succeed — dequeue with `[]`, depth with 0, peek with `[]`. -/
theorem c6_not_found_iff (db : QueueDB) (name : String) (limit : Nat)
    (hname : isAlphanumName name = true) (hlim : 1 ≤ limit) :
    ((dequeue db name limit).1 = .error .notFound
      ↔ dbTableExists db name = false) ∧
    ((peekQueue db name).1 = .error .notFound
      ↔ dbTableExists db name = false) ∧
    ((depthQueue db name).1 = .error .notFound
      ↔ dbTableExists db name = false) ∧
    (dbTableExists db name = true → queueRows db name = [] →
      (dequeue db name limit).1 = .ok [] ∧
      (depthQueue db name).1 = .ok 0 ∧
      (peekQueue db name).1 = .ok []) := by
  by_cases hex : dbTableExists db name = true
  · refine ⟨?_, ?_, ?_, ?_⟩
    · unfold dequeue
      rw [if_pos ⟨hname, hlim⟩, if_pos hex]
      simp [hex]
    · unfold peekQueue
      rw [if_pos hname, if_pos hex]
      cases (sortByPosition (queueRows db name)).head? with
      | none => simp [hex]
      | some r => cases hj : jsNewArray r.item <;> simp [hex, hj]
    · unfold depthQueue
      rw [if_pos hname, if_pos hex]
      simp [hex]
    · intro _ hrows0
      refine ⟨?_, ?_, ?_⟩
      · unfold dequeue dequeueRows
        rw [if_pos ⟨hname, hlim⟩, if_pos hex, hrows0]
        simp [sortByPosition]
      · unfold depthQueue
        rw [if_pos hname, if_pos hex, hrows0]
        rfl
      · unfold peekQueue
        rw [if_pos hname, if_pos hex, hrows0]
        rfl
  · have hex' : dbTableExists db name = false := by
      simpa using hex
    refine ⟨?_, ?_, ?_, fun h _ => absurd h hex⟩
    · unfold dequeue
      rw [if_pos ⟨hname, hlim⟩, if_neg (by simp [hex'])]
      simp [hex']
    · unfold peekQueue
      rw [if_pos hname, if_neg (by simp [hex'])]
      simp [hex']
    · unfold depthQueue
      rw [if_pos hname, if_neg (by simp [hex'])]
      simp [hex']

/-- Witness for C6 on an existing empty queue and a missing queue. -/
theorem c6_witness :
    (depthQueue [("q", [])] "q").1 = .ok 0 ∧
    ((depthQueue [("q", [])] "missing").1 = .error .notFound
      ↔ dbTableExists [("q", [])] "missing" = false) := by
  have h1 := (c6_not_found_iff [("q", [])] "q" 1 (by decide) (by norm_num)).2.2.2
    rfl rfl
  have h2 := (c6_not_found_iff [("q", [])] "missing" 1 (by decide)
    (by norm_num)).2.2.1
  exact ⟨h1.2.1, h2⟩

/-- C7: clear always replies 200 whatever the prior state, removes the
backing table with all items, and a subsequent depth call replies 404
NotFound. -/
theorem c7_clear (db : QueueDB) (name : String)
    (hname : isAlphanumName name = true) :
    (clearQueue db name).1 = .ok () ∧
    dbTableExists (clearQueue db name).2 name = false ∧
    queueRows (clearQueue db name).2 name = [] ∧
    (depthQueue (clearQueue db name).2 name).1 = .error .notFound := by
  have key : List.lookup name (clearQueue db name).2 = none := by
    unfold clearQueue
    rw [if_pos hname]
    by_cases hex : dbTableExists db name = true
    · rw [if_pos hex]
      exact lookup_filter_self db name
    · rw [if_neg hex]
      cases h : List.lookup name db with
      | none => rfl
      | some t => exact absurd (by simp [dbTableExists, h]) hex
  have hexf : dbTableExists (clearQueue db name).2 name = false := by
    simp [dbTableExists, key]
  refine ⟨?_, hexf, ?_, ?_⟩
  · unfold clearQueue
    rw [if_pos hname]
    by_cases hex : dbTableExists db name = true
    · rw [if_pos hex]
    · rw [if_neg hex]
  · simp [queueRows, key]
  · unfold depthQueue
    rw [if_pos hname, if_neg (by simp [hexf])]

/-- Witness for C7: clearing an existing queue and a never-created one. -/
theorem c7_witness :
    (clearQueue [("q", [⟨1, Json.num 4⟩])] "q").1 = .ok () ∧
    (depthQueue (clearQueue [("q", [⟨1, Json.num 4⟩])] "q").2 "q").1
      = .error .notFound ∧
    (clearQueue [] "never").1 = .ok () := by
  have h1 := c7_clear [("q", [⟨1, Json.num 4⟩])] "q" (by decide)
  have h2 := c7_clear [] "never" (by decide)
  exact ⟨h1.1, h1.2.2.2, h2.1⟩

/-- C8 counterexample: the empty string is a JSON-serializable value, but
`put("k", "")` is rejected by `body().notEmpty()` with a 400 rather than
succeeding, and the following get replies 404. -/
theorem c8_counterexample :
    (mapPut [] "k" (Json.str "")).1 = .error .validationError ∧
    (mapGet (mapPut [] "k" (Json.str "")).2 "k").1 = .error .notFound := by
  exact ⟨rfl, rfl⟩

/-- C8 amended: for every alphanumeric key and every JSON value the
boundary validation accepts (body not empty: not null, nor a value whose
string coercion is empty such as `""` or `[]`), put succeeds as an
unconditional create-or-replace whatever the key held before, an
immediately following get returns that value, and get replies 404
NotFound exactly when the key is absent. -/
theorem c8_put_get_amended (db : MapDB) (key : String) (v : Json)
    (hkey : isAlphanumName key = true)
    (hv : bodyNotEmpty v = true) :
    (mapPut db key v).1 = .ok () ∧
    (mapGet (mapPut db key v).2 key).1 = .ok v ∧
    (∀ (db' : MapDB) (k : String), isAlphanumName k = true →
      ((mapGet db' k).1 = .error .notFound ↔ List.lookup k db' = none)) := by
  have hp : mapPut db key v = (.ok (), mapUpsert db key v) := by
    unfold mapPut
    rw [if_pos ⟨hkey, hv⟩]
  refine ⟨by rw [hp], ?_, ?_⟩
  · rw [hp]
    unfold mapGet mapUpsert
    rw [if_pos hkey, lookup_upsert_self]
  · intro db' k hk
    unfold mapGet
    rw [if_pos hk]
    cases h : List.lookup k db' with
    | none => simp [h]
    | some w => simp [h]

/-- Witness for C8: overwriting a key then reading it back. -/
theorem c8_witness :
    (mapPut [("k", Json.num 1)] "k" (Json.num 2)).1 = .ok () ∧
    (mapGet (mapPut [("k", Json.num 1)] "k" (Json.num 2)).2 "k").1
      = .ok (Json.num 2) := by
  have h := c8_put_get_amended [("k", Json.num 1)] "k" (Json.num 2)
    (by decide) (by decide)
  exact ⟨h.1, h.2.1⟩

end Datapool
